import Mathlib

/-!
Shallow embedding of src/tasks.py, a minimal in-process task runner.

The module keeps a process-wide dictionary `tasks` mapping function names to
task definitions; the decorator `task(inputs=None, outputs=None)` records a
routine under its own __name__, and `run_tasks(force=False)` walks the
dictionary in insertion order, fails on missing inputs, and runs or skips each
task according to the staleness policy.

Modelling choices:
- The filesystem collaborator (os.path.exists / os.path.getmtime) is a pair of
  total functions; modification times are naturals.
- A work routine is inert data (name, defining source file, an identity tag);
  an invocation is recorded as an event rather than executed.
- The process-wide dictionary is threaded explicitly: the decorator maps a
  registry to a registry. A Python dict preserves insertion order, and
  assigning to an existing key keeps that key at its original position; the
  model `dictInsert` reproduces this.
- In the source, the run condition of run_tasks reads the name `outputs` in
  its last disjunct, but no such name is bound in run_tasks (the decorator
  parameter `outputs` is not in scope there and the module has no global of
  that name), so evaluating that disjunct raises NameError at run time; the
  model surfaces this as the error `RunError.nameError "outputs"`. The
  `print(f'Skipped task {task_name}')` else-branch is consequently unreachable.
-/

namespace TaskRunner

/-- The filesystem collaborator of the runner: which paths exist
(os.path.exists) and their modification times (os.path.getmtime). Only the
modification times of existing paths are meaningful; reading the time of a
missing path raises in Python, and theorems below show the runner never
depends on such a value. -/
structure FS where
  pathExists : String → Bool
  getmtime : String → Nat

/-- A work routine as the decorator sees it: its function __name__ (the
registry key), the file inspect.getfile reports it was defined in, and an
identity tag so that two distinct routines sharing a __name__ stay
distinguishable. -/
structure Work where
  name : String
  srcFile : String
  tag : Nat
  deriving DecidableEq, Repr

/-- One entry of the `tasks` dictionary: the callable plus the inputs and
outputs lists recorded at registration. -/
structure TaskDef where
  callable : Work
  inputs : List String
  outputs : List String
  deriving DecidableEq, Repr

/-- The `tasks` dictionary, as an insertion-ordered association list. -/
abbrev Registry := List (String × TaskDef)

/-- Python dict assignment `d[k] = v`: when the key is already present its
value is replaced and the key keeps its original position; otherwise the new
pair is appended at the end. -/
def dictInsert (r : Registry) (k : String) (v : TaskDef) : Registry :=
  if r.any (fun p => p.1 == k) then
    r.map (fun p => if p.1 == k then (k, v) else p)
  else
    r ++ [(k, v)]

/-- Dict lookup `d[k]`, as an Option. -/
def lookup (r : Registry) (k : String) : Option TaskDef :=
  (r.find? (fun p => p.1 == k)).map (fun p => p.2)

/-- The decorator factory `task(inputs=None, outputs=None)`: applied to a
routine it stores `{'callable': func, 'inputs': inputs or [], 'outputs':
outputs or []}` under `func.__name__` and hands the routine back unchanged.
`none` models passing None (or omitting the argument); `inputs or []` turns
both None and an empty list into []. Registration touches nothing else: it
takes no filesystem and produces no events. -/
def task (inputs outputs : Option (List String)) (func : Work) (r : Registry) :
    Registry × Work :=
  (dictInsert r func.name ⟨func, inputs.getD [], outputs.getD []⟩, func)

/-- The helper `_missing_paths(paths)` of src/tasks.py: the declared paths
that do not exist on the filesystem, in order. -/
def _missing_paths (fs : FS) (paths : List String) : List String :=
  paths.filter (fun path => !(fs.pathExists path))

/-- The helper `_out_of_date_outputs(task)` of src/tasks.py:
`newest_input = max((getmtime(p) for p in inputs), default=0)` (over naturals,
a left fold of max from 0 agrees with Python's max-with-default-0),
`source_modified = getmtime(src) if exists(src) else 0` where src is
inspect.getfile of the callable, and the result is the list of outputs whose
modification time is strictly below max(newest_input, source_modified). -/
def _out_of_date_outputs (fs : FS) (t : TaskDef) : List String :=
  let newest_input : Nat := (t.inputs.map fs.getmtime).foldl max 0
  let source_filename : String := t.callable.srcFile
  let source_modified : Nat :=
    if fs.pathExists source_filename then fs.getmtime source_filename else 0
  let modification_threshold : Nat := max newest_input source_modified
  t.outputs.filter (fun output => fs.getmtime output < modification_threshold)

/-- The reason printed in the progress notice when a task runs. -/
inductive Reason where
  | forced
  | missingOutputs (paths : List String)
  | outdatedOutputs (paths : List String)
  deriving DecidableEq, Repr

/-- Observable events of a run: the progress notices and the invocations of
the registered routines. `skippedNotice` models the source's
`print(f'Skipped task {task_name}')`; the theorems below show the runner can
never emit it, because evaluating the unbound name `outputs` raises first. -/
inductive Event where
  | ranNotice (taskName : String) (reason : Reason)
  | workInvoked (w : Work)
  | skippedNotice (taskName : String)
  deriving DecidableEq, Repr

/-- The errors run_tasks itself can raise: the FileNotFoundError for missing
inputs (naming the task and listing the missing paths), and the NameError from
reading an unbound name. -/
inductive RunError where
  | fileNotFound (taskName : String) (missing : List String)
  | nameError (unboundName : String)
  deriving DecidableEq, Repr

/-- One iteration of the run_tasks loop (src/tasks.py lines 64-92), given the
effective force flag. First the missing-input check raises FileNotFoundError
when any input is absent. Then the run condition
`force or (missing := _missing_paths(task['outputs'])) or (outdated :=
_out_of_date_outputs(task)) or not outputs` short-circuits left to right; its
last disjunct reads the unbound name `outputs` and raises NameError, so the
skip branch is unreachable. The printed reason follows the source's
`if force / elif missing / elif outdated` chain, which in each reachable run
branch reports exactly the disjunct that fired. -/
def run_one (fs : FS) (force : Bool) (taskName : String) (t : TaskDef) :
    List Event × Option RunError :=
  let missingInputs := _missing_paths fs t.inputs
  if missingInputs ≠ [] then
    ([], some (.fileNotFound taskName missingInputs))
  else if force then
    ([.ranNotice taskName .forced, .workInvoked t.callable], none)
  else
    let missing := _missing_paths fs t.outputs
    if missing ≠ [] then
      ([.ranNotice taskName (.missingOutputs missing), .workInvoked t.callable], none)
    else
      let outdated := _out_of_date_outputs fs t
      if outdated ≠ [] then
        ([.ranNotice taskName (.outdatedOutputs outdated), .workInvoked t.callable], none)
      else
        ([], some (.nameError "outputs"))

/-- The loop of run_tasks: registry entries are processed in order, events
accumulate, and a raised error aborts everything after it. -/
def run_list (fs : FS) (force : Bool) : Registry → List Event × Option RunError
  | [] => ([], none)
  | (taskName, t) :: rest =>
    match run_one fs force taskName t with
    | (evs, some e) => (evs, some e)
    | (evs, none) =>
      let tail := run_list fs force rest
      (evs ++ tail.1, tail.2)

/-- `run_tasks(force=False)`: the effective flag is the argument or the
external `--force` command-line signal, then each registered task is processed
in registration order. Returns the event trace and the error, if one was
raised, that aborted the run. -/
def run_tasks (r : Registry) (fs : FS) (force : Bool) (argvForce : Bool) :
    List Event × Option RunError :=
  run_list fs (force || argvForce) r

/-- The sequence of routines invoked during a run, extracted from the trace. -/
def workOrder (evs : List Event) : List Work :=
  evs.filterMap (fun e => match e with | .workInvoked w => some w | _ => none)

/-- Spec-side staleness, written from the specification's words: the newest
input time is the maximum modification time over the task's inputs, or the
sentinel 0 when the inputs list is empty. -/
def newestInputTimeSpec (fs : FS) (t : TaskDef) : Nat :=
  ((t.inputs.map fs.getmtime).max?).getD 0

/-- Spec-side staleness: the modification time of the task's origin artifact,
or 0 when that artifact cannot be located. -/
def sourceModifiedTimeSpec (fs : FS) (t : TaskDef) : Nat :=
  if fs.pathExists t.callable.srcFile then fs.getmtime t.callable.srcFile else 0

/-- Spec-side staleness: threshold = max(newest_input_time, source_modified_time). -/
def thresholdSpec (fs : FS) (t : TaskDef) : Nat :=
  max (newestInputTimeSpec fs t) (sourceModifiedTimeSpec fs t)

/-- Spec-side staleness: the out-of-date set is the list of outputs whose
modification time is strictly less than the threshold. -/
def outOfDateSpec (fs : FS) (t : TaskDef) : List String :=
  t.outputs.filter (fun output => fs.getmtime output < thresholdSpec fs t)

/-- Concrete routines for the evaluated scenarios. `wA1` and `wA2` are two
distinct routines sharing the function name A. -/
def wA1 : Work := ⟨"A", "tasks.py", 1⟩

def wB : Work := ⟨"B", "tasks.py", 2⟩

def wA2 : Work := ⟨"A", "tasks.py", 3⟩

def wBuild : Work := ⟨"build", "tasks.py", 10⟩

def wCleanup : Work := ⟨"cleanup", "tasks.py", 11⟩

def wLater : Work := ⟨"later", "tasks.py", 12⟩

/-- Concrete filesystem: in.txt (mtime 100), out.txt (mtime 200) and the
defining file tasks.py (mtime 50) exist; nothing else does. -/
def fsDemo : FS where
  pathExists := fun p => p == "in.txt" || p == "out.txt" || p == "tasks.py"
  getmtime := fun p =>
    if p == "in.txt" then 100 else if p == "out.txt" then 200
    else if p == "tasks.py" then 50 else 0

/-- Registry obtained by registering A, then B, then a second routine also
named A. -/
def registryABA : Registry :=
  (task none none wA2 ((task none none wB ((task none none wA1 []).1)).1)).1

/-- The task of the idempotence scenario: inputs [in.txt], outputs [out.txt]. -/
def tBuild : TaskDef := ⟨wBuild, ["in.txt"], ["out.txt"]⟩

/-- Registry holding only the build task, registered through the decorator. -/
def registryBuildFresh : Registry :=
  (task (some ["in.txt"]) (some ["out.txt"]) wBuild []).1

/-- Registry holding only a task with no inputs and no outputs. -/
def registryCleanup : Registry := (task none none wCleanup []).1

/-- Registry with the fresh build task first and then a task whose declared
input nope.txt does not exist. -/
def registryC4 : Registry :=
  (task (some ["nope.txt"]) none wLater ((task (some ["in.txt"]) (some ["out.txt"]) wBuild []).1)).1

/-- The task whose declared input nope.txt is absent from fsDemo. -/
def tLater : TaskDef := ⟨wLater, ["nope.txt"], []⟩

/-- Filesystem like fsDemo but where out.txt is absent: only in.txt and
tasks.py exist. -/
def fsNoOut : FS where
  pathExists := fun p => p == "in.txt" || p == "tasks.py"
  getmtime := fun p => if p == "in.txt" then 100 else if p == "tasks.py" then 50 else 0

/-- Filesystem with exactly fsDemo's existence map but different modification
times on every nonexistent path. -/
def fsGhost : FS where
  pathExists := fsDemo.pathExists
  getmtime := fun p => if fsDemo.pathExists p then fsDemo.getmtime p else 777

/-- The event trace of a run in which every task is forced: per task, the
forced progress notice followed by the invocation of its routine. -/
def forcedTrace : Registry → List Event
  | [] => []
  | (taskName, t) :: rest =>
    .ranNotice taskName .forced :: .workInvoked t.callable :: forcedTrace rest

end TaskRunner

namespace TaskRunner

/-- A path list has no missing paths exactly when each of its paths exists. -/
theorem missing_paths_eq_nil_iff (fs : FS) (paths : List String) :
    _missing_paths fs paths = [] ↔ ∀ p ∈ paths, fs.pathExists p = true := by
  simp [_missing_paths, List.filter_eq_nil_iff]

/-- Over the naturals, folding max from 0 computes the maximum of the list
with default 0, which is Python's max(..., default=0). -/
theorem foldl_max_eq_maxD (l : List Nat) : l.foldl max 0 = (l.max?).getD 0 := by
  cases l with
  | nil => rfl
  | cons a as => simp [List.max?, List.foldl_cons, Nat.zero_max]

/-- Auxiliary step of the overwrite case: replacing each entry keyed k by
(k, v) and then searching for key k finds (k, v), provided some entry has
key k. -/
theorem find?_map_replace (k : String) (v : TaskDef) (r : Registry)
    (h : r.any (fun p => p.1 == k) = true) :
    (r.map (fun p => if p.1 == k then (k, v) else p)).find? (fun p => p.1 == k)
      = some (k, v) := by
  induction r with
  | nil => simp at h
  | cons q rest ih =>
    simp only [List.map_cons]
    split
    · exact List.find?_cons_of_pos _ (by simp)
    · rename_i hq
      rw [List.find?_cons_of_neg (p := fun x : String × TaskDef => x.1 == k) _ hq]
      simp only [List.any_cons, Bool.or_eq_true] at h
      rcases h with h | h
      · exact absurd h hq
      · exact ih h

/-- Auxiliary step of the overwrite case: replacing the entries keyed k does
not disturb a search for any other key. -/
theorem find?_map_replace_other (k n : String) (v : TaskDef) (r : Registry)
    (hne : n ≠ k) :
    (r.map (fun p => if p.1 == k then (k, v) else p)).find? (fun p => p.1 == n)
      = r.find? (fun p => p.1 == n) := by
  induction r with
  | nil => rfl
  | cons q rest ih =>
    simp only [List.map_cons]
    split
    · rename_i hq
      have hq1 : q.1 = k := by simpa using hq
      rw [List.find?_cons_of_neg _ (by simp only [beq_iff_eq]; exact Ne.symm hne),
        List.find?_cons_of_neg _ (by simp only [beq_iff_eq, hq1]; exact Ne.symm hne)]
      exact ih
    · cases hn : (q.1 == n) with
      | true =>
        rw [List.find?_cons_of_pos (p := fun x : String × TaskDef => x.1 == n) _ hn,
          List.find?_cons_of_pos (p := fun x : String × TaskDef => x.1 == n) _ hn]
      | false =>
        rw [List.find?_cons_of_neg (p := fun x : String × TaskDef => x.1 == n) _ (by simp [hn]),
          List.find?_cons_of_neg (p := fun x : String × TaskDef => x.1 == n) _ (by simp [hn])]
        exact ih

/-- Looking up the key just assigned by dict assignment yields the assigned
value (whether the key was fresh or overwritten in place). -/
theorem lookup_dictInsert_self (r : Registry) (k : String) (v : TaskDef) :
    lookup (dictInsert r k v) k = some v := by
  unfold dictInsert
  split
  · rename_i hany
    unfold lookup
    rw [find?_map_replace k v r hany]
    rfl
  · rename_i hany
    unfold lookup
    rw [List.find?_append]
    have hnone : r.find? (fun p => p.1 == k) = none := by
      rw [List.find?_eq_none]
      intro p hp hbad
      exact hany (List.any_eq_true.2 ⟨p, hp, hbad⟩)
    rw [hnone]
    have h1 : List.find? (fun p => p.1 == k) [(k, v)] = some (k, v) :=
      List.find?_cons_of_pos _ (by simp)
    rw [h1]
    rfl

/-- Dict assignment leaves the value under every other key unchanged. -/
theorem lookup_dictInsert_other (r : Registry) (k n : String) (v : TaskDef)
    (hne : n ≠ k) :
    lookup (dictInsert r k v) n = lookup r n := by
  unfold dictInsert
  split
  · unfold lookup
    rw [find?_map_replace_other k n v r hne]
  · unfold lookup
    rw [List.find?_append]
    have h1 : List.find? (fun p => p.1 == n) [(k, v)] = none := by
      rw [List.find?_cons_of_neg _ (by simp only [beq_iff_eq]; exact Ne.symm hne)]
      rfl
    rw [h1, Option.or_none]

/-- A key looks up to nothing exactly when no entry bears it. -/
theorem lookup_eq_none_iff (r : Registry) (k : String) :
    lookup r k = none ↔ r.any (fun p => p.1 == k) = false := by
  simp only [lookup, Option.map_eq_none', List.find?_eq_none, List.any_eq_false]

/-- Dict assignment appends a fresh key at the end and keeps the key sequence
unchanged when the key was already present. -/
theorem map_fst_dictInsert (r : Registry) (k : String) (v : TaskDef) :
    (dictInsert r k v).map Prod.fst =
      (if lookup r k = none then r.map Prod.fst ++ [k] else r.map Prod.fst) := by
  unfold dictInsert
  split
  · rename_i hany
    rw [if_neg (by rw [lookup_eq_none_iff]; simp [hany])]
    rw [List.map_map]
    apply List.map_congr_left
    intro p _
    cases hp : (p.1 == k) with
    | true =>
      have hp1 : p.1 = k := by simpa using hp
      simp [Function.comp, hp, hp1]
    | false => simp [Function.comp, hp]
  · rename_i hany
    rw [if_pos (by rw [lookup_eq_none_iff]; exact Bool.eq_false_iff.2 hany)]
    simp

/-- With the force flag effective and no missing inputs, a task runs with the
forced reason. -/
theorem run_one_forced (fs : FS) (n : String) (t : TaskDef)
    (h : _missing_paths fs t.inputs = []) :
    run_one fs true n t = ([.ranNotice n .forced, .workInvoked t.callable], none) := by
  simp [run_one, h]

/-- With the force flag effective and no task missing an input, the loop
produces the forced trace and raises nothing. -/
theorem run_list_forced (fs : FS) (r : Registry)
    (h : ∀ p ∈ r, _missing_paths fs p.2.inputs = []) :
    run_list fs true r = (forcedTrace r, none) := by
  induction r with
  | nil => rfl
  | cons q rest ih =>
    obtain ⟨n, t⟩ := q
    have h1 : _missing_paths fs t.inputs = [] := h (n, t) (List.mem_cons_self _ _)
    have h2 : ∀ p ∈ rest, _missing_paths fs p.2.inputs = [] :=
      fun p hp => h p (List.mem_cons_of_mem _ hp)
    simp [run_list, run_one_forced fs n t h1, ih h2, forcedTrace]

/-- Invoked routines of a concatenated trace. -/
theorem workOrder_append (a b : List Event) :
    workOrder (a ++ b) = workOrder a ++ workOrder b := by
  simp [workOrder, List.filterMap_append]

/-- The forced trace invokes exactly the registered routines, in registry
order. -/
theorem workOrder_forcedTrace (r : Registry) :
    workOrder (forcedTrace r) = r.map (fun p => p.2.callable) := by
  induction r with
  | nil => rfl
  | cons q rest ih =>
    obtain ⟨n, t⟩ := q
    simp only [forcedTrace, workOrder, List.filterMap_cons] at ih ⊢
    simp [ih]

/-- The only routine one loop iteration can invoke is the task's own. -/
theorem run_one_workInvoked_eq (fs : FS) (f : Bool) (n : String) (t : TaskDef) (w : Work)
    (h : Event.workInvoked w ∈ (run_one fs f n t).1) : w = t.callable := by
  simp only [run_one] at h
  split at h
  · simp at h
  · split at h
    · simp at h
      exact h
    · split at h
      · simp at h
        exact h
      · split at h
        · simp at h
          exact h
        · simp at h

/-- The missing-path computation reads only the existence map. -/
theorem missing_paths_congr (fs1 fs2 : FS) (hex : fs1.pathExists = fs2.pathExists)
    (l : List String) : _missing_paths fs1 l = _missing_paths fs2 l := by
  unfold _missing_paths
  rw [hex]

/-- The staleness computation reads modification times only of the existing
inputs, the origin file when it exists, and the outputs, which its callers
have already checked to exist: two filesystems with the same existence map
that agree on the times of existing paths give the same out-of-date set. -/
theorem out_of_date_congr (fs1 fs2 : FS) (hex : fs1.pathExists = fs2.pathExists)
    (hmt : ∀ p, fs1.pathExists p = true → fs1.getmtime p = fs2.getmtime p)
    (t : TaskDef)
    (hin : ∀ i ∈ t.inputs, fs1.pathExists i = true)
    (hout : ∀ o ∈ t.outputs, fs1.pathExists o = true) :
    _out_of_date_outputs fs1 t = _out_of_date_outputs fs2 t := by
  have hmap : t.inputs.map fs1.getmtime = t.inputs.map fs2.getmtime :=
    List.map_congr_left (fun i hi => hmt i (hin i hi))
  have hsrc : (if fs1.pathExists t.callable.srcFile then fs1.getmtime t.callable.srcFile else 0)
      = (if fs2.pathExists t.callable.srcFile then fs2.getmtime t.callable.srcFile else 0) := by
    rw [← hex]
    cases hs : fs1.pathExists t.callable.srcFile with
    | true => simp [hs, hmt _ hs]
    | false => simp [hs]
  simp only [_out_of_date_outputs]
  rw [hmap, hsrc]
  apply List.filter_congr
  intro o ho
  rw [hmt o (hout o ho)]

/-- One loop iteration is unchanged between two filesystems with the same
existence map that agree on the modification times of existing paths. -/
theorem run_one_congr (fs1 fs2 : FS) (hex : fs1.pathExists = fs2.pathExists)
    (hmt : ∀ p, fs1.pathExists p = true → fs1.getmtime p = fs2.getmtime p)
    (f : Bool) (n : String) (t : TaskDef) :
    run_one fs1 f n t = run_one fs2 f n t := by
  simp only [run_one]
  rw [missing_paths_congr fs1 fs2 hex t.inputs, missing_paths_congr fs1 fs2 hex t.outputs]
  by_cases hmi : _missing_paths fs2 t.inputs = []
  case neg => simp [hmi]
  case pos =>
    cases f with
    | true => simp [hmi]
    | false =>
      by_cases hmo : _missing_paths fs2 t.outputs = []
      case neg => simp [hmi, hmo]
      case pos =>
        have hin : ∀ i ∈ t.inputs, fs1.pathExists i = true := by
          intro i hi
          rw [hex]
          exact (missing_paths_eq_nil_iff fs2 t.inputs).1 hmi i hi
        have hout : ∀ o ∈ t.outputs, fs1.pathExists o = true := by
          intro o ho
          rw [hex]
          exact (missing_paths_eq_nil_iff fs2 t.outputs).1 hmo o ho
        rw [out_of_date_congr fs1 fs2 hex hmt t hin hout]

/-- The whole loop is unchanged between two filesystems with the same
existence map that agree on the modification times of existing paths. -/
theorem run_list_congr (fs1 fs2 : FS) (hex : fs1.pathExists = fs2.pathExists)
    (hmt : ∀ p, fs1.pathExists p = true → fs1.getmtime p = fs2.getmtime p)
    (f : Bool) (r : Registry) :
    run_list fs1 f r = run_list fs2 f r := by
  induction r with
  | nil => rfl
  | cons q rest ih =>
    obtain ⟨n, t⟩ := q
    simp only [run_list]
    rw [run_one_congr fs1 fs2 hex hmt f n t, ih]

/-- Dict assignment keyed by the stored routine's name preserves the registry
invariant that every key is its entry's routine name. -/
theorem dictInsert_good (r : Registry) (v : TaskDef)
    (hgood : ∀ p ∈ r, p.1 = p.2.callable.name) :
    ∀ p ∈ dictInsert r v.callable.name v, p.1 = p.2.callable.name := by
  intro p hp
  unfold dictInsert at hp
  split at hp
  · obtain ⟨q, hq, rfl⟩ := List.mem_map.1 hp
    split
    · rfl
    · exact hgood q hq
  · rcases List.mem_append.1 hp with h | h
    · exact hgood p h
    · simp only [List.mem_singleton] at h
      subst h
      rfl

/-- C1 as stated is false at a concrete input: registering A, then B, then a
second routine also named A leaves exactly two entries, but the registry
iterates and the forced run invokes them in the order A then B, not B then A;
the second A routine sits at A's original first position. -/
theorem duplicate_name_order_counterexample :
    registryABA.map Prod.fst = ["A", "B"] ∧
    workOrder (run_tasks registryABA fsDemo true false).1 = [wA2, wB] ∧
    workOrder (run_tasks registryABA fsDemo true false).1 ≠ [wB, wA2] := by
  decide

/-- C1 (amended): for registrations A then B then a second registration with
A's name, the registry holds exactly two entries; the second registration of A
replaces the stored definition but keeps A at its original first position
(Python dict assignment preserves an existing key's position), so iteration
and forced execution process A's (new) routine before B. -/
theorem duplicate_name_keeps_position (nA nB : String) (hab : nA ≠ nB)
    (wa wb wa2 : Work) (ha : wa.name = nA) (hb : wb.name = nB) (ha2 : wa2.name = nA)
    (outsa outsb outsa2 : Option (List String)) (fs : FS) :
    ((task none outsa2 wa2 ((task none outsb wb ((task none outsa wa []).1)).1)).1).map Prod.fst
      = [nA, nB] ∧
    lookup ((task none outsa2 wa2 ((task none outsb wb ((task none outsa wa []).1)).1)).1) nA
      = some ⟨wa2, [], outsa2.getD []⟩ ∧
    workOrder (run_tasks
        ((task none outsa2 wa2 ((task none outsb wb ((task none outsa wa []).1)).1)).1)
        fs true false).1
      = [wa2, wb] := by
  have e : ((task none outsa2 wa2 ((task none outsb wb ((task none outsa wa []).1)).1)).1)
      = [(nA, ⟨wa2, [], outsa2.getD []⟩), (nB, ⟨wb, [], outsb.getD []⟩)] := by
    simp [task, dictInsert, ha, hb, ha2, hab, Ne.symm hab]
  refine ⟨by rw [e]; rfl, by rw [e]; simp [lookup], ?_⟩
  rw [e]
  unfold run_tasks
  rw [Bool.or_false]
  rw [run_list_forced fs _ ?_]
  · rw [workOrder_forcedTrace]
    rfl
  · intro p hp
    simp only [List.mem_cons, List.mem_singleton, List.not_mem_nil, or_false] at hp
    rcases hp with rfl | rfl
    · rfl
    · rfl

/-- Closed instance of duplicate_name_keeps_position: the concrete names A
and B, the concrete routines wA1, wB, wA2 and the demo filesystem. -/
theorem duplicate_name_keeps_position_witness :
    ((task none none wA2 ((task none none wB ((task none none wA1 []).1)).1)).1).map Prod.fst
      = ["A", "B"] ∧
    lookup ((task none none wA2 ((task none none wB ((task none none wA1 []).1)).1)).1) "A"
      = some ⟨wA2, [], []⟩ ∧
    workOrder (run_tasks
        ((task none none wA2 ((task none none wB ((task none none wA1 []).1)).1)).1)
        fsDemo true false).1
      = [wA2, wB] :=
  duplicate_name_keeps_position "A" "B" (by decide) wA1 wB wA2 rfl rfl rfl
    none none none fsDemo

/-- C2 is contradicted by the code: for the build task whose only input in.txt
exists and whose only output out.txt exists and is newer than both the input
and the defining file, run_tasks(force=False) does not skip the task and emits
no notice at all; evaluating the unbound name `outputs` in the run condition
raises NameError, the routine is not invoked, and no second run can follow. -/
theorem fresh_task_run_raises_nameerror :
    _missing_paths fsDemo tBuild.outputs = [] ∧
    _out_of_date_outputs fsDemo tBuild = [] ∧
    run_tasks registryBuildFresh fsDemo false false = ([], some (.nameError "outputs")) ∧
    workOrder (run_tasks registryBuildFresh fsDemo false false).1 = [] := by
  decide

/-- C3 is contradicted by the code: a registered task with an empty outputs
list (and no inputs) does not have its routine invoked by
run_tasks(force=False); its iteration reaches the no-outputs disjunct of the
run condition, which evaluates the unbound name `outputs` and raises
NameError. -/
theorem no_outputs_task_raises_nameerror :
    registryCleanup = [("cleanup", ⟨wCleanup, [], []⟩)] ∧
    run_tasks registryCleanup fsDemo false false = ([], some (.nameError "outputs")) ∧
    workOrder (run_tasks registryCleanup fsDemo false false).1 = [] := by
  decide

/-- C4 is contradicted by the code: with the fresh build task registered before
the later task whose declared input nope.txt is missing, run_tasks(force=False)
raises NameError while deciding the build task and never reaches the later
task, so the run aborts without a FileNotFoundError naming it. -/
theorem missing_input_error_preempted :
    _missing_paths fsDemo tLater.inputs = ["nope.txt"] ∧
    run_tasks registryC4 fsDemo false false = ([], some (.nameError "outputs")) ∧
    (run_tasks registryC4 fsDemo false false).2
      ≠ some (.fileNotFound "later" ["nope.txt"]) := by
  decide

/-- C5: the out-of-date set computed by the code equals the specification's:
the outputs whose modification time is strictly below the threshold, where the
threshold is the maximum of the newest input time (sentinel 0 for an empty
inputs list) and the origin artifact's time (0 when it cannot be located);
and an output whose time equals the threshold is not out of date. -/
theorem out_of_date_outputs_refines_spec (fs : FS) (t : TaskDef) :
    _out_of_date_outputs fs t = outOfDateSpec fs t ∧
    ∀ o, fs.getmtime o = thresholdSpec fs t → o ∉ _out_of_date_outputs fs t := by
  have he : _out_of_date_outputs fs t = outOfDateSpec fs t := by
    simp only [_out_of_date_outputs, outOfDateSpec, thresholdSpec, newestInputTimeSpec,
      sourceModifiedTimeSpec, foldl_max_eq_maxD]
  refine ⟨he, ?_⟩
  intro o ho hmem
  rw [he] at hmem
  have hlt := (List.mem_filter.1 hmem).2
  rw [ho] at hlt
  simp at hlt

/-- Closed instance of out_of_date_outputs_refines_spec at the demo
filesystem and the build task, whose input in.txt carries exactly the
threshold time 100. -/
theorem out_of_date_outputs_refines_spec_witness :
    _out_of_date_outputs fsDemo tBuild = outOfDateSpec fsDemo tBuild ∧
    "in.txt" ∉ _out_of_date_outputs fsDemo tBuild :=
  ⟨(out_of_date_outputs_refines_spec fsDemo tBuild).1,
    (out_of_date_outputs_refines_spec fsDemo tBuild).2 "in.txt" (by decide)⟩

/-- C6: when force is true and every registered task's inputs all exist,
run_tasks raises nothing, emits for each task the forced notice followed by
the invocation of its routine, and thus invokes every registered routine
exactly once, in registration order, with forced as the reported reason. -/
theorem run_tasks_forced_runs_all (r : Registry) (fs : FS) (argvForce : Bool)
    (h : ∀ p ∈ r, ∀ i ∈ p.2.inputs, fs.pathExists i = true) :
    run_tasks r fs true argvForce = (forcedTrace r, none) ∧
    workOrder (run_tasks r fs true argvForce).1 = r.map (fun p => p.2.callable) := by
  have hm : ∀ p ∈ r, _missing_paths fs p.2.inputs = [] := by
    intro p hp
    exact (missing_paths_eq_nil_iff fs p.2.inputs).2 (h p hp)
  have he : run_tasks r fs true argvForce = (forcedTrace r, none) := by
    unfold run_tasks
    rw [Bool.true_or]
    exact run_list_forced fs r hm
  exact ⟨he, by rw [he, workOrder_forcedTrace]⟩

/-- Closed instance of run_tasks_forced_runs_all at the single-task demo
registry. -/
theorem run_tasks_forced_runs_all_witness :
    run_tasks registryBuildFresh fsDemo true false = (forcedTrace registryBuildFresh, none) ∧
    workOrder (run_tasks registryBuildFresh fsDemo true false).1
      = registryBuildFresh.map (fun p => p.2.callable) :=
  run_tasks_forced_runs_all registryBuildFresh fsDemo false (by decide)

/-- C7: with force false, a task whose inputs all exist and one of whose
outputs does not exist is decided to run with the reason missing outputs
(listing exactly the missing outputs), and the run never reads the
modification time of a nonexistent path: the result of run_tasks is unchanged
between filesystems with the same existence map that agree on the times of
existing paths, so the staleness computation is in effect only reached when
all outputs exist. -/
theorem missing_outputs_reason_and_mtime_safety :
    (∀ fs n t, _missing_paths fs t.inputs = [] → _missing_paths fs t.outputs ≠ [] →
      run_one fs false n t =
        ([.ranNotice n (.missingOutputs (_missing_paths fs t.outputs)),
          .workInvoked t.callable], none)) ∧
    (∀ fs1 fs2 r force argvForce, fs1.pathExists = fs2.pathExists →
      (∀ p, fs1.pathExists p = true → fs1.getmtime p = fs2.getmtime p) →
      run_tasks r fs1 force argvForce = run_tasks r fs2 force argvForce) := by
  constructor
  · intro fs n t h1 h2
    simp [run_one, h1, h2]
  · intro fs1 fs2 r force argvForce hex hmt
    unfold run_tasks
    exact run_list_congr fs1 fs2 hex hmt _ r

/-- Closed instance of missing_outputs_reason_and_mtime_safety: the build
task against the filesystem without out.txt, and the demo filesystem against
its variant whose times differ exactly on nonexistent paths. -/
theorem missing_outputs_reason_and_mtime_safety_witness :
    run_one fsNoOut false "build" tBuild =
      ([.ranNotice "build" (.missingOutputs (_missing_paths fsNoOut tBuild.outputs)),
        .workInvoked tBuild.callable], none) ∧
    run_tasks registryBuildFresh fsDemo false false
      = run_tasks registryBuildFresh fsGhost false false := by
  refine ⟨missing_outputs_reason_and_mtime_safety.1 fsNoOut "build" tBuild
    (by decide) (by decide), ?_⟩
  refine missing_outputs_reason_and_mtime_safety.2 fsDemo fsGhost registryBuildFresh
    false false rfl ?_
  intro p hp
  simp [fsGhost, hp]

/-- C8: registration only records the task: the registry gains or overwrites
exactly the entry under the routine's name, every other name keeps its
binding, the key sequence changes only by appending a fresh name at the end,
and the routine is handed back unchanged. In this embedding `task` takes no
filesystem and produces no events, mirroring that the code checks no path and
never invokes the routine at registration time. -/
theorem registration_frame (r : Registry) (ins outs : Option (List String)) (w : Work) :
    (task ins outs w r).2 = w ∧
    lookup (task ins outs w r).1 w.name = some ⟨w, ins.getD [], outs.getD []⟩ ∧
    (∀ n, n ≠ w.name → lookup (task ins outs w r).1 n = lookup r n) ∧
    (task ins outs w r).1.map Prod.fst =
      (if lookup r w.name = none then r.map Prod.fst ++ [w.name] else r.map Prod.fst) :=
  ⟨rfl, lookup_dictInsert_self r w.name _,
    fun n hn => lookup_dictInsert_other r w.name n _ hn,
    map_fst_dictInsert r w.name _⟩

/-- Closed instance of registration_frame: registering a new routine on top of
the demo registry leaves the build entry untouched. -/
theorem registration_frame_witness :
    (task (some ["x.txt"]) none wLater registryBuildFresh).2 = wLater ∧
    lookup (task (some ["x.txt"]) none wLater registryBuildFresh).1 "later"
      = some ⟨wLater, ["x.txt"], []⟩ ∧
    lookup (task (some ["x.txt"]) none wLater registryBuildFresh).1 "build"
      = lookup registryBuildFresh "build" ∧
    (task (some ["x.txt"]) none wLater registryBuildFresh).1.map Prod.fst
      = (if lookup registryBuildFresh "later" = none
          then registryBuildFresh.map Prod.fst ++ ["later"]
          else registryBuildFresh.map Prod.fst) := by
  have h := registration_frame registryBuildFresh (some ["x.txt"]) none wLater
  exact ⟨h.1, h.2.1, h.2.2.1 "build" (by decide), h.2.2.2⟩

/-- C9: force never bypasses the missing-input precondition: a task with a
missing declared input makes its loop iteration raise FileNotFoundError naming
it and its missing inputs whatever the force argument or the command-line
signal, and in any run containing such a task (whose routine no earlier entry
shares) that routine is never invoked and the run always aborts with some
error. -/
theorem missing_input_beats_force (fs : FS) (force argvForce : Bool) (n : String)
    (t : TaskDef) (hmiss : _missing_paths fs t.inputs ≠ []) :
    run_one fs (force || argvForce) n t
      = ([], some (.fileNotFound n (_missing_paths fs t.inputs))) ∧
    ∀ pre post, (∀ p ∈ pre, p.2.callable ≠ t.callable) →
      Event.workInvoked t.callable ∉ (run_tasks (pre ++ (n, t) :: post) fs force argvForce).1 ∧
      (run_tasks (pre ++ (n, t) :: post) fs force argvForce).2 ≠ none := by
  have hone : ∀ g : Bool, run_one fs g n t
      = ([], some (.fileNotFound n (_missing_paths fs t.inputs))) := by
    intro g
    simp [run_one, hmiss]
  refine ⟨hone _, ?_⟩
  intro pre post hpre
  unfold run_tasks
  revert hpre
  induction pre with
  | nil =>
    intro _
    simp only [List.nil_append, run_list, hone]
    exact ⟨by simp, by simp⟩
  | cons q rest ih =>
    intro hpre
    obtain ⟨qn, qt⟩ := q
    have hq : qt.callable ≠ t.callable := hpre (qn, qt) (List.mem_cons_self _ _)
    have ih2 := ih (fun p hp => hpre p (List.mem_cons_of_mem _ hp))
    have hinv : Event.workInvoked t.callable ∉ (run_one fs (force || argvForce) qn qt).1 := by
      intro hmem
      exact hq (run_one_workInvoked_eq fs _ qn qt t.callable hmem).symm
    simp only [List.cons_append, run_list]
    cases hro : run_one fs (force || argvForce) qn qt with
    | mk evs err =>
      rw [hro] at hinv
      cases err with
      | some e => exact ⟨hinv, by simp⟩
      | none =>
        constructor
        · intro hmem
          rcases List.mem_append.1 hmem with hmem | hmem
          · exact hinv hmem
          · exact ih2.1 hmem
        · exact ih2.2

/-- Closed instance of missing_input_beats_force: even with force true, the
later task with the missing input nope.txt errors its iteration, and in the
two-task run its routine is never invoked and the run aborts. -/
theorem missing_input_beats_force_witness :
    run_one fsDemo (true || false) "later" tLater
      = ([], some (.fileNotFound "later" (_missing_paths fsDemo tLater.inputs))) ∧
    (Event.workInvoked tLater.callable ∉
        (run_tasks ([("build", tBuild)] ++ ("later", tLater) :: []) fsDemo true false).1 ∧
      (run_tasks ([("build", tBuild)] ++ ("later", tLater) :: []) fsDemo true false).2
        ≠ none) := by
  have h := missing_input_beats_force fsDemo true false "later" tLater (by decide)
  exact ⟨h.1, h.2 [("build", tBuild)] [] (by decide)⟩

/-- C10: the registry key is always the routine's own function name: the
decorator invariant that every key equals its entry's routine name is
preserved, and registering a second, distinct routine bearing the same
function name overwrites the earlier entry in place, leaving the key sequence
unchanged. -/
theorem registry_key_is_routine_name (r : Registry)
    (ins1 outs1 ins2 outs2 : Option (List String)) (w1 w2 : Work)
    (hname : w1.name = w2.name) (hdiff : w1 ≠ w2)
    (hgood : ∀ p ∈ r, p.1 = p.2.callable.name) :
    lookup (task ins2 outs2 w2 (task ins1 outs1 w1 r).1).1 w2.name
      = some ⟨w2, ins2.getD [], outs2.getD []⟩ ∧
    (∀ p ∈ (task ins2 outs2 w2 (task ins1 outs1 w1 r).1).1, p.1 = p.2.callable.name) ∧
    (task ins2 outs2 w2 (task ins1 outs1 w1 r).1).1.map Prod.fst
      = (task ins1 outs1 w1 r).1.map Prod.fst := by
  refine ⟨lookup_dictInsert_self _ w2.name _, ?_, ?_⟩
  · exact dictInsert_good _ ⟨w2, ins2.getD [], outs2.getD []⟩
      (dictInsert_good r ⟨w1, ins1.getD [], outs1.getD []⟩ hgood)
  · have hl : lookup (task ins1 outs1 w1 r).1 w2.name
        = some ⟨w1, ins1.getD [], outs1.getD []⟩ := by
      rw [← hname]
      exact lookup_dictInsert_self r w1.name _
    rw [show (task ins2 outs2 w2 (task ins1 outs1 w1 r).1).1
        = dictInsert (task ins1 outs1 w1 r).1 w2.name ⟨w2, ins2.getD [], outs2.getD []⟩
        from rfl]
    rw [map_fst_dictInsert, hl]
    simp

/-- Closed instance of registry_key_is_routine_name at the two distinct
routines wA1 and wA2, both named A, over the empty registry. -/
theorem registry_key_is_routine_name_witness :
    lookup (task none none wA2 (task none none wA1 []).1).1 "A" = some ⟨wA2, [], []⟩ ∧
    (∀ p ∈ (task none none wA2 (task none none wA1 []).1).1, p.1 = p.2.callable.name) ∧
    (task none none wA2 (task none none wA1 []).1).1.map Prod.fst
      = (task none none wA1 []).1.map Prod.fst := by
  have h := registry_key_is_routine_name [] none none none none wA1 wA2 rfl
    (by decide) (by intro p hp; simp at hp)
  exact ⟨h.1, h.2.1, h.2.2⟩

end TaskRunner
